import Mathlib

/-!
Verification development for the `hft-moe-fpga-engine` repository.

Shallow embedding of the two Python source files:
* `sim/scripts/verify_trace.py` — trace comparator (`compare_traces`);
* `tools/generate_itch_data.py` — ITCH Add Order codec (`pack_add_order`),
  CSV adapter and synthetic generator.

Python strings become `String`, Python `dict` rows become association
lists, Python `int` becomes `ℤ`/`ℕ`, Python `float` values are modelled
as `ℚ` (the comparator only parses decimal literals and compares them),
raised exceptions become `Except.error`, and byte strings become
`List ℕ` with every entry < 256.
-/

/-- A loaded trace row: a mapping from column name to string value
(one Python `dict` produced by `csv.DictReader` in `load_trace`). -/
abbrev Row := List (String × String)

/-- Python `row[field]` / `field in row`: association-list lookup. -/
def lookupField (r : Row) (f : String) : Option String := List.lookup f r

/-- Whitespace characters recognised by Python `str.strip()` (ASCII subset). -/
def pyIsSpace (c : Char) : Bool :=
  c == ' ' || c == '\t' || c == '\n' || c == '\r' || c == '\x0b' || c == '\x0c'

/-- Python `str.strip()`: remove leading and trailing whitespace. -/
def pyStrip (s : String) : String :=
  String.mk (((s.data.dropWhile pyIsSpace).reverse.dropWhile pyIsSpace).reverse)

/-- Value of a digit string, most significant digit first. -/
def digitsToNat (ds : List Char) : ℕ :=
  ds.foldl (fun a c => 10 * a + (c.toNat - 48)) 0

/-- Unsigned part of a Python `float(...)` literal: digits with an optional
single decimal point (`"12"`, `"12.5"`, `"12."`, `".5"`).  Exponent forms and
`inf`/`nan`, which never arise in the traces under comparison, are outside
the modelled grammar and rejected. -/
def pyFloatCore (cs : List Char) : Option ℚ :=
  match cs.span Char.isDigit with
  | (ds, []) => if ds.isEmpty then none else some (digitsToNat ds : ℚ)
  | (ds, '.' :: fs) =>
      if fs.all Char.isDigit && !(ds.isEmpty && fs.isEmpty) then
        some ((digitsToNat ds : ℚ) + (digitsToNat fs : ℚ) / (10 ^ fs.length : ℚ))
      else none
  | _ => none

/-- Python `float(s)`: strip whitespace, optional sign, decimal literal.
Returns `none` where CPython raises `ValueError`. -/
def pyFloat (s : String) : Option ℚ :=
  match (pyStrip s).data with
  | '+' :: rest => pyFloatCore rest
  | '-' :: rest => (pyFloatCore rest).map (fun q => -q)
  | cs => pyFloatCore cs

/-- Python `int(q)` on a float value: truncation toward zero. -/
def pyTrunc (q : ℚ) : ℤ := if q < 0 then -(-q).floor else q.floor

/-- `EXACT_FIELDS` from `verify_trace.py` (line 62). -/
def EXACT_FIELDS : List String :=
  ["side", "price", "shares", "matched", "match_price", "match_qty"]

/-- `APPROX_FIELDS` from `verify_trace.py` (line 65). -/
def APPROX_FIELDS : List String := ["moe_confidence"]

/-- `CATEGORY_FIELDS` from `verify_trace.py` (line 68). -/
def CATEGORY_FIELDS : List String := ["moe_action"]

/-- `DEFAULT_TOLERANCE` from `verify_trace.py` (line 73). -/
def DEFAULT_TOLERANCE : ℚ := 1 / 100

/-- The `actions` label map `0 HOLD / 1 BUY / 2 SELL` with fallback to the
raw code (`actions.get(v, v)`, line 165). -/
def actionLabel (n : ℤ) : String :=
  if n = 0 then "HOLD" else if n = 1 then "BUY"
  else if n = 2 then "SELL" else toString n

/-- The exact-match field loop of `compare_traces` (lines 131-138): a field
absent on either side is skipped; otherwise the stripped values must be
equal.  Returns the row-ok flag contribution and the mismatch messages in
field order.  (Report strings are modelled without the `:.6f` renderings.) -/
def checkExact (g h : Row) : List String → Bool × List String
  | [] => (true, [])
  | f :: rest =>
    let tl := checkExact g h rest
    match lookupField g f, lookupField h f with
    | some gv, some hv =>
        if pyStrip gv = pyStrip hv then tl
        else (false, (f ++ ": golden=" ++ pyStrip gv ++ " hw=" ++ pyStrip hv) :: tl.2)
    | _, _ => tl

/-- The tolerance field loop of `compare_traces` (lines 141-155): parse both
sides as floats; a parse failure on either side is caught (`except
ValueError`) and recorded as a mismatch; otherwise mismatch exactly when
the absolute difference strictly exceeds the tolerance. -/
def checkApprox (g h : Row) (tol : ℚ) : List String → Bool × List String
  | [] => (true, [])
  | f :: rest =>
    let tl := checkApprox g h tol rest
    match lookupField g f, lookupField h f with
    | some gv, some hv =>
        match pyFloat gv, pyFloat hv with
        | some gq, some hq =>
            if |gq - hq| > tol then
              (false, (f ++ ": golden=" ++ gv ++ " hw=" ++ hv) :: tl.2)
            else tl
        | _, _ => (false, (f ++ ": parse error") :: tl.2)
    | _, _ => tl

/-- The categorical field loop of `compare_traces` (lines 158-169):
`int(float(...))` on both sides has **no** surrounding `try`, so a parse
failure raises `ValueError` and aborts the whole comparison. -/
def checkCat (g h : Row) : List String → Except String (Bool × List String)
  | [] => .ok (true, [])
  | f :: rest =>
    match checkCat g h rest with
    | .error e => .error e
    | .ok tl =>
      match lookupField g f, lookupField h f with
      | some gv, some hv =>
          match pyFloat gv, pyFloat hv with
          | some gq, some hq =>
              if pyTrunc gq ≠ pyTrunc hq then
                .ok (false, (f ++ ": golden=" ++ actionLabel (pyTrunc gq) ++
                             " hw=" ++ actionLabel (pyTrunc hq)) :: tl.2)
              else .ok tl
          | _, _ => .error "ValueError"
      | _, _ => .ok tl

/-- One iteration of the row loop of `compare_traces` (lines 123-169):
evaluate the three field classes; the row passes when no class records a
mismatch.  Mismatch messages are concatenated in source order. -/
def compareRow (g h : Row) (tol : ℚ) : Except String (Bool × List String) :=
  let eres := checkExact g h EXACT_FIELDS
  let ares := checkApprox g h tol APPROX_FIELDS
  match checkCat g h CATEGORY_FIELDS with
  | .error e => .error e
  | .ok cres => .ok (eres.1 && ares.1 && cres.1, eres.2 ++ ares.2 ++ cres.2)

/-- A per-row mismatch record appended to `results['details']`
(lines 175-179). -/
structure Detail where
  order_idx : ℕ
  stock : String
  mismatches : List String
deriving DecidableEq

/-- The `results` dict returned by `compare_traces` (lines 106-111). -/
structure Verdict where
  total : ℕ
  passed : ℕ
  failed : ℕ
  details : List Detail
deriving DecidableEq

/-- The row loop of `compare_traces` (lines 121-181), written as structural
recursion over the two row lists: the loop runs over
`range(min(len(golden), len(hardware)))`, which is exactly where the
simultaneous pattern match stops.  The index `i` is the loop counter; the
verdict accumulated by the forward loop equals the one assembled here on
the way back up (counts are added per row, details stay in ascending row
order).  An exception raised in a row aborts the whole call, as in Python. -/
def compareRows (tol : ℚ) : ℕ → List Row → List Row → Except String Verdict
  | _, [], _ => .ok ⟨0, 0, 0, []⟩
  | _, _ :: _, [] => .ok ⟨0, 0, 0, []⟩
  | i, g :: gs, h :: hs =>
    match compareRow g h tol with
    | .error e => .error e
    | .ok (rowOk, ms) =>
      match compareRows tol (i + 1) gs hs with
      | .error e => .error e
      | .ok v =>
        if rowOk then .ok ⟨v.total + 1, v.passed + 1, v.failed, v.details⟩
        else .ok ⟨v.total + 1, v.passed, v.failed + 1,
                  ⟨i, (lookupField g "stock").getD "?", ms⟩ :: v.details⟩

/-- `compare_traces(golden, hardware, tolerance)` (lines 96-181).  The
row-count warning on unequal lengths is console output only and does not
affect the returned verdict. -/
def compare_traces (golden hardware : List Row) (tolerance : ℚ) :
    Except String Verdict :=
  compareRows tolerance 0 golden hardware

example : compare_traces [[("side", "B")]] [[("side", "B")]] 0 = .ok ⟨1, 1, 0, []⟩ := rfl

example : compare_traces [[("side", "B")]] [[("side", "S")]] 0 =
    .ok ⟨1, 0, 1, [⟨0, "?", ["side: golden=B hw=S"]⟩]⟩ := rfl

example : compare_traces [[("moe_action", "x")]] [[("moe_action", "x")]] 0 =
    .error "ValueError" := rfl

example : pyFloat "x" = none := rfl

example : compare_traces [[("moe_confidence", "x")]] [[("moe_confidence", "x")]] 0 =
    .ok ⟨1, 0, 1, [⟨0, "?", ["moe_confidence: parse error"]⟩]⟩ := rfl

/-! ### `tools/generate_itch_data.py` — ITCH Add Order codec -/

/-- `ITCH_ADD_ORDER = 0x41` (line 44). -/
def ITCH_ADD_ORDER : ℕ := 0x41

/-- `ADD_ORDER_SIZE = 36` (line 45). -/
def ADD_ORDER_SIZE : ℕ := 36

/-- `STOCK_FIELD_LEN = 8` (line 46). -/
def STOCK_FIELD_LEN : ℕ := 8

/-- `PRICE_SCALE = 10 ** 4` (line 48). -/
def PRICE_SCALE : ℕ := 10 ^ 4

/-- Big-endian byte encoding of `v` on `n` bytes, as produced by
`int.to_bytes(n, byteorder='big')` and the fixed-width `struct.pack`
codes (`H`, `Q`, `I`), for in-range `v`. -/
def toBytesBE : ℕ → ℕ → List ℕ
  | 0, _ => []
  | n + 1, v => toBytesBE n (v / 256) ++ [v % 256]

/-- Big-endian byte decoding: value of a byte list, first byte most
significant. -/
def fromBytesBE (bs : List ℕ) : ℕ :=
  bs.foldl (fun a b => a * 256 + b) 0

/-- `bs[off : off+len]`: the `len` bytes of `bs` starting at offset `off`. -/
def sliceAt (bs : List ℕ) (off len : ℕ) : List ℕ :=
  (bs.drop off).take len

/-- The distinct ways `pack_add_order` can raise, in check order:
the four `assert` validations (lines 89-92), then the implicit range /
encoding errors of `str.encode('ascii')` (line 95), `int.to_bytes`
(line 107) and `struct.pack` (lines 109-123). -/
inductive PackError where
  | sideInvalid
  | sharesRange
  | priceRange
  | symbolTooLong
  | symbolNotAscii
  | timestampRange
  | stockLocateRange
  | trackingNumRange
  | orderRefRange
deriving DecidableEq

/-- `pack_add_order` (lines 51-126): validate, then emit the fixed 36-byte
big-endian Add Order record.  The Python keyword defaults
`stock_locate=0, tracking_num=0` are passed explicitly by every caller
modelled here. -/
def pack_add_order (timestamp_ns order_ref : ℤ) (side : String) (shares : ℤ)
    (stock : String) (price_raw stock_locate tracking_num : ℤ) :
    Except PackError (List ℕ) :=
  if side = "B" ∨ side = "S" then
    if 0 ≤ shares ∧ shares < 2 ^ 32 then
      if 0 ≤ price_raw ∧ price_raw < 2 ^ 32 then
        if stock.length ≤ STOCK_FIELD_LEN then
          if stock.data.all (fun c => c.toNat < 128) then
            if 0 ≤ timestamp_ns ∧ timestamp_ns < 2 ^ 48 then
              if 0 ≤ stock_locate ∧ stock_locate < 2 ^ 16 then
                if 0 ≤ tracking_num ∧ tracking_num < 2 ^ 16 then
                  if 0 ≤ order_ref ∧ order_ref < 2 ^ 64 then
                    .ok ([ITCH_ADD_ORDER] ++
                      toBytesBE 2 stock_locate.toNat ++
                      toBytesBE 2 tracking_num.toNat ++
                      toBytesBE 6 timestamp_ns.toNat ++
                      toBytesBE 8 order_ref.toNat ++
                      side.data.map Char.toNat ++
                      toBytesBE 4 shares.toNat ++
                      (stock.data.map Char.toNat ++
                        List.replicate (STOCK_FIELD_LEN - stock.length) 0x20) ++
                      toBytesBE 4 price_raw.toNat)
                  else .error .orderRefRange
                else .error .trackingNumRange
              else .error .stockLocateRange
            else .error .timestampRange
          else .error .symbolNotAscii
        else .error .symbolTooLong
      else .error .priceRange
    else .error .sharesRange
  else .error .sideInvalid

/-- Remove trailing `' '` padding, as the §4.1 decode step prescribes for
the symbol field. -/
def dropTrailingSpaces (cs : List Char) : List Char :=
  (cs.reverse.dropWhile (fun c => c == ' ')).reverse

/-- Field values recovered from a 36-byte Add Order record. -/
structure DecodedOrder where
  timestamp_ns : ℤ
  order_ref : ℤ
  side : String
  shares : ℤ
  stock : String
  price_raw : ℤ
deriving DecidableEq

/-- Decode a 36-byte Add Order record per the §4.1 layout: each field at
its fixed offset, big-endian, with the symbol space-padding stripped. -/
def decode_add_order (bs : List ℕ) : DecodedOrder where
  timestamp_ns := (fromBytesBE (sliceAt bs 5 6) : ℤ)
  order_ref := (fromBytesBE (sliceAt bs 11 8) : ℤ)
  side := String.mk ((sliceAt bs 19 1).map Char.ofNat)
  shares := (fromBytesBE (sliceAt bs 20 4) : ℤ)
  stock := String.mk (dropTrailingSpaces ((sliceAt bs 24 8).map Char.ofNat))
  price_raw := (fromBytesBE (sliceAt bs 32 4) : ℤ)

/-! ### CSV adapter (`generate_from_csv`) -/

/-- Python `str.upper()` on the ASCII symbols appearing here. -/
def pyUpper (s : String) : String := String.mk (s.data.map Char.toUpper)

/-- The raw symbol resolved from a CSV row before shortening
(`row.get('symbol', row.get('ticker', row.get('stock', 'AAPL')))` followed
by `.strip().upper()`, lines 163-164). -/
def csvRawStock (row : Row) : String :=
  pyUpper (pyStrip ((lookupField row "symbol").getD
    ((lookupField row "ticker").getD
      ((lookupField row "stock").getD "AAPL"))))

/-- The symbol actually passed to `pack_add_order` by the CSV adapter:
the raw resolved symbol truncated to its first `STOCK_FIELD_LEN`
characters (`[:STOCK_FIELD_LEN]`, line 164). -/
def resolveCsvStock (row : Row) : String :=
  String.mk ((csvRawStock row).data.take STOCK_FIELD_LEN)

example : resolveCsvStock [("symbol", " toolongsymbol ")] = "TOOLONGS" := rfl
example : resolveCsvStock [] = "AAPL" := rfl

/-! ### Synthetic generator (`generate_synthetic`) -/

/-- Python `round(q)` with one argument: round half to even, returning an
integer (so `int(round(x))` is the same value). -/
def pyRound (q : ℚ) : ℤ :=
  let f := q.floor
  let r := q - (f : ℚ)
  if r < 1 / 2 then f
  else if 1 / 2 < r then f + 1
  else if f % 2 = 0 then f else f + 1

/-- Modelled from the spec: the Python stdlib `random` module (not part of
`src/`) is replaced by an explicit deterministic pseudo-random state, per
§4.2 "All randomness must be seeded deterministically from a single seed
value".  The Mersenne Twister itself is standard-library code; only its
two relevant properties are kept — every sample is a pure function of the
state, and the state is a pure function of the seed. -/
def rngStep (s : ℕ) : ℕ := (6364136223846793005 * s + 1442695040888963407) % 2 ^ 64

/-- Modelled from the spec: `random.seed(seed)` (line 378). -/
def seedState (seed : ℕ) : ℕ := rngStep seed

/-- Modelled from the spec: `random.randint(lo, hi)` — inclusive bounds. -/
def randInt (s : ℕ) (lo hi : ℕ) : ℕ × ℕ :=
  let s2 := rngStep s
  (lo + s2 % (hi + 1 - lo), s2)

/-- Modelled from the spec: `random.random()` — a value in `[0, 1)`. -/
def randUnit (s : ℕ) : ℚ × ℕ :=
  let s2 := rngStep s
  (((s2 % 2 ^ 32 : ℕ) : ℚ) / (2 ^ 32 : ℚ), s2)

/-- Modelled from the spec: `random.gauss(0, sigma)` — a mean-zero sample
scaled by `sigma` (the exact distribution is irrelevant to the claims). -/
def randGauss (s : ℕ) (sigma : ℚ) : ℚ × ℕ :=
  let s2 := rngStep s
  (sigma * ((((s2 % 2001 : ℕ) : ℚ) - 1000) / 1000), s2)

/-- Modelled from the spec: `random.choice(xs)` — pick one element
(raises on an empty sequence in Python; totalised with `getD`). -/
def randChoice {α : Type} [Inhabited α] (s : ℕ) (xs : List α) : α × ℕ :=
  let s2 := rngStep s
  (xs.getD (s2 % xs.length) default, s2)

/-- The default symbol list of `generate_synthetic` (line 244). -/
def defaultSymbols : List String :=
  ["AAPL", "GOOG", "MSFT", "TSLA", "AMZN", "META", "NVDA", "AMD"]

/-- The lot-size table of `generate_synthetic` (line 252). -/
def lotSizes : List ℕ := [100, 100, 100, 200, 200, 300, 500, 1000]

/-- `prices[stock] = v` on the per-symbol mid-price dict. -/
def updatePrice (ps : List (String × ℚ)) (sym : String) (v : ℚ) :
    List (String × ℚ) :=
  ps.map (fun p => if p.1 = sym then (p.1, v) else p)

/-- The body of the `for i in range(num_orders)` loop of
`generate_synthetic` (lines 254-310), threading the per-symbol prices,
timestamp, order reference and RNG state explicitly.  Each iteration
yields the packed message (or the validation error it raises). -/
def genSyntheticLoop (symbols : List String) (volatility : ℚ) :
    ℕ → List (String × ℚ) → ℕ → ℕ → ℕ → List (Except PackError (List ℕ))
  | 0, _, _, _, _ => []
  | n + 1, prices, ts, oref, rng =>
    let (stock, rng) := randChoice rng symbols
    let p0 := (List.lookup stock prices).getD 0
    let (gs, rng) := randGauss rng volatility
    let priceChange := gs * p0
    let newPrice := max 1 (p0 + priceChange)
    let prices := updatePrice prices stock newPrice
    let buyProb := max (3 / 10) (min (7 / 10) (1 / 2 - priceChange / newPrice * 10))
    let (u, rng) := randUnit rng
    let side := if u < buyProb then "B" else "S"
    let (spreadTicks, rng) := randInt rng 1 10
    let orderPrice :=
      if side = "B" then newPrice - (spreadTicks : ℚ) * (1 / 100)
      else newPrice + (spreadTicks : ℚ) * (1 / 100)
    let priceRaw := pyRound (orderPrice * (PRICE_SCALE : ℚ))
    let (shares, rng) := randChoice rng lotSizes
    let (u2, rng) := randUnit rng
    let (gap, rng) := if u2 < 1 / 5 then randInt rng 100 500 else randInt rng 1000 10000
    let ts := ts + gap
    let msg := pack_add_order (ts : ℤ) (oref : ℤ) side (shares : ℤ) stock priceRaw 0 0
    msg :: genSyntheticLoop symbols volatility n prices ts (oref + 1) rng

/-- `generate_synthetic(num_orders, symbols, base_price, volatility,
base_timestamp_ns)` (lines 210-310) run against a given RNG state:
defaults the symbol list, initialises the per-symbol mid-prices to the
base price, starts order references at 1. -/
def generate_synthetic (num_orders : ℕ) (symbols : Option (List String))
    (base_price volatility : ℚ) (base_timestamp_ns : ℕ) (rng : ℕ) :
    List (Except PackError (List ℕ)) :=
  let syms := symbols.getD defaultSymbols
  genSyntheticLoop syms volatility num_orders (syms.map (fun s => (s, base_price)))
    base_timestamp_ns 1 rng

/-- One generator run as invoked by `main` (lines 372-396): seed the RNG
(`random.seed(args.seed)`), then generate with the defaulted volatility
`0.001` and base timestamp `34_200_000_000_000`. -/
def runGenerator (seed num_orders : ℕ) (symbols : Option (List String))
    (base_price : ℚ) : List (Except PackError (List ℕ)) :=
  generate_synthetic num_orders symbols base_price (1 / 1000) 34200000000000
    (seedState seed)

/-- The bytes `write_output` (lines 313-337) writes to the binary file: the
generated messages concatenated in order; an exception raised while
producing a message aborts the run, leaving the earlier bytes written. -/
def writeOk : List (Except PackError (List ℕ)) → List ℕ
  | [] => []
  | .ok m :: rest => m ++ writeOk rest
  | .error _ :: _ => []

/-- The binary output stream of one seeded generator run. -/
def binaryOutput (seed num_orders : ℕ) (symbols : Option (List String))
    (base_price : ℚ) : List ℕ :=
  writeOk (runGenerator seed num_orders symbols base_price)

/-! ### Helper lemmas: byte encoding -/

theorem toBytesBE_length (n v : ℕ) : (toBytesBE n v).length = n := by
  induction n generalizing v with
  | zero => rfl
  | succ n ih => simp [toBytesBE, ih]

theorem fromBytesBE_append_singleton (l : List ℕ) (b : ℕ) :
    fromBytesBE (l ++ [b]) = fromBytesBE l * 256 + b := by
  simp [fromBytesBE, List.foldl_append]

theorem fromBytesBE_toBytesBE (n v : ℕ) (h : v < 256 ^ n) :
    fromBytesBE (toBytesBE n v) = v := by
  induction n generalizing v with
  | zero =>
    interval_cases v
    rfl
  | succ n ih =>
    rw [toBytesBE, fromBytesBE_append_singleton, ih (v / 256)
      ((Nat.div_lt_iff_lt_mul (by norm_num)).mpr (by rw [← pow_succ]; exact h))]
    omega

theorem sliceAt_eq_mid (pre mid post : List ℕ) (off len : ℕ)
    (h1 : pre.length = off) (h2 : mid.length = len) :
    sliceAt (pre ++ (mid ++ post)) off len = mid := by
  subst h1; subst h2
  unfold sliceAt
  rw [List.drop_left, List.take_left]

theorem pack_add_order_ok_valid (timestamp_ns order_ref : ℤ) (side : String)
    (shares : ℤ) (stock : String) (price_raw stock_locate tracking_num : ℤ)
    (bs : List ℕ)
    (h : pack_add_order timestamp_ns order_ref side shares stock price_raw
      stock_locate tracking_num = .ok bs) :
    (side = "B" ∨ side = "S") ∧ (0 ≤ shares ∧ shares < 2 ^ 32) ∧
      (0 ≤ price_raw ∧ price_raw < 2 ^ 32) ∧ stock.length ≤ STOCK_FIELD_LEN := by
  unfold pack_add_order at h
  repeat' split at h
  all_goals first
    | exact ⟨‹_›, ‹_›, ‹_›, ‹_›⟩
    | simp_all

/-- C2: encoding fails with a validation error (and hence produces no
output bytes) whenever the side is not B/S, shares or price are outside
the unsigned 32-bit range, or the symbol exceeds 8 characters; in
particular an over-long symbol is rejected, never truncated. -/
theorem C2_pack_rejects_invalid (timestamp_ns order_ref : ℤ) (side : String)
    (shares : ℤ) (stock : String) (price_raw stock_locate tracking_num : ℤ)
    (hbad : (side ≠ "B" ∧ side ≠ "S") ∨ ¬(0 ≤ shares ∧ shares < 2 ^ 32) ∨
      ¬(0 ≤ price_raw ∧ price_raw < 2 ^ 32) ∨ STOCK_FIELD_LEN < stock.length) :
    ∃ e, pack_add_order timestamp_ns order_ref side shares stock price_raw
      stock_locate tracking_num = .error e := by
  cases hres : pack_add_order timestamp_ns order_ref side shares stock price_raw
      stock_locate tracking_num with
  | error e => exact ⟨e, rfl⟩
  | ok bs =>
    exfalso
    obtain ⟨hside, hsh, hpr, hlen⟩ := pack_add_order_ok_valid _ _ _ _ _ _ _ _ _ hres
    rcases hbad with hb | hb | hb | hb
    · rcases hside with h | h
      · exact hb.1 h
      · exact hb.2 h
    · exact hb hsh
    · exact hb hpr
    · exact absurd hlen (not_le.mpr hb)

theorem C2_witness :
    ∃ e, pack_add_order 0 1 "X" 100 "AAPL" 50000 0 0 = .error e :=
  C2_pack_rejects_invalid 0 1 "X" 100 "AAPL" 50000 0 0
    (Or.inl ⟨by decide, by decide⟩)

/-- C10: the CSV adapter resolves the symbol by stripping, uppercasing and
truncating to the first 8 characters, so the resolved symbol always fits
the codec field: a source symbol longer than 8 characters is silently
shortened to length 8 and the codec symbol-length rejection can never
fire on the adapter path. -/
theorem C10_csv_symbol_truncated (row : Row) :
    (resolveCsvStock row).length ≤ STOCK_FIELD_LEN ∧
    (STOCK_FIELD_LEN < (csvRawStock row).length →
      (resolveCsvStock row).length = STOCK_FIELD_LEN) ∧
    ∀ (timestamp_ns order_ref : ℤ) (side : String) (shares price_raw : ℤ),
      pack_add_order timestamp_ns order_ref side shares (resolveCsvStock row)
        price_raw 0 0 ≠ .error PackError.symbolTooLong := by
  have hlen : (resolveCsvStock row).length =
      min STOCK_FIELD_LEN (csvRawStock row).length := by
    show ((csvRawStock row).data.take STOCK_FIELD_LEN).length = _
    rw [List.length_take]
    rfl
  refine ⟨?_, ?_, ?_⟩
  · rw [hlen]; exact min_le_left _ _
  · intro hgt
    rw [hlen]
    exact min_eq_left (le_of_lt hgt)
  · intro ts oref side sh pr h
    have hle : (resolveCsvStock row).length ≤ STOCK_FIELD_LEN := by
      rw [hlen]; exact min_le_left _ _
    unfold pack_add_order at h
    repeat' split at h
    all_goals simp_all

theorem C10_witness :
    (resolveCsvStock [("symbol", " toolongsymbol ")]).length ≤ STOCK_FIELD_LEN ∧
    (resolveCsvStock [("symbol", " toolongsymbol ")]).length = STOCK_FIELD_LEN ∧
    pack_add_order 0 1 "B" 100 (resolveCsvStock [("symbol", " toolongsymbol ")])
      1000000 0 0 ≠ .error PackError.symbolTooLong :=
  ⟨(C10_csv_symbol_truncated _).1,
   (C10_csv_symbol_truncated _).2.1 (by decide),
   (C10_csv_symbol_truncated _).2.2 0 1 "B" 100 1000000⟩

/-- C9: two runs of the seeded synthetic generator with the same seed,
order count, symbol list and base price produce byte-identical binary
output streams. -/
theorem C9_generator_deterministic (seed1 seed2 n1 n2 : ℕ)
    (syms1 syms2 : Option (List String)) (bp1 bp2 : ℚ)
    (hseed : seed1 = seed2) (hn : n1 = n2) (hsyms : syms1 = syms2)
    (hbp : bp1 = bp2) :
    binaryOutput seed1 n1 syms1 bp1 = binaryOutput seed2 n2 syms2 bp2 := by
  subst hseed; subst hn; subst hsyms; subst hbp; rfl

theorem C9_witness : binaryOutput 42 5 none 150 = binaryOutput 42 5 none 150 :=
  C9_generator_deterministic 42 42 5 5 none none 150 150 rfl rfl rfl rfl

theorem pack_add_order_eq_ok (timestamp_ns order_ref : ℤ) (side : String)
    (shares : ℤ) (stock : String) (price_raw stock_locate tracking_num : ℤ)
    (hside : side = "B" ∨ side = "S")
    (hsh : 0 ≤ shares ∧ shares < 2 ^ 32)
    (hpr : 0 ≤ price_raw ∧ price_raw < 2 ^ 32)
    (hlen : stock.length ≤ STOCK_FIELD_LEN)
    (hascii : ∀ c ∈ stock.data, c.toNat < 128)
    (hts : 0 ≤ timestamp_ns ∧ timestamp_ns < 2 ^ 48)
    (hloc : 0 ≤ stock_locate ∧ stock_locate < 2 ^ 16)
    (htrk : 0 ≤ tracking_num ∧ tracking_num < 2 ^ 16)
    (href : 0 ≤ order_ref ∧ order_ref < 2 ^ 64) :
    pack_add_order timestamp_ns order_ref side shares stock price_raw
      stock_locate tracking_num = .ok ([ITCH_ADD_ORDER] ++
        toBytesBE 2 stock_locate.toNat ++
        toBytesBE 2 tracking_num.toNat ++
        toBytesBE 6 timestamp_ns.toNat ++
        toBytesBE 8 order_ref.toNat ++
        side.data.map Char.toNat ++
        toBytesBE 4 shares.toNat ++
        (stock.data.map Char.toNat ++
          List.replicate (STOCK_FIELD_LEN - stock.length) 0x20) ++
        toBytesBE 4 price_raw.toNat) := by
  unfold pack_add_order
  rw [if_pos hside, if_pos hsh, if_pos hpr, if_pos hlen,
    if_pos (List.all_eq_true.mpr fun c hc => decide_eq_true (hascii c hc)),
    if_pos hts, if_pos hloc, if_pos htrk, if_pos href]

theorem layout_slices (s0 s1 s2 s3 s4 s5 s6 s7 s8 bs : List ℕ)
    (hbs : bs = s0 ++ s1 ++ s2 ++ s3 ++ s4 ++ s5 ++ s6 ++ s7 ++ s8)
    (h0 : s0.length = 1) (h1 : s1.length = 2) (h2 : s2.length = 2)
    (h3 : s3.length = 6) (h4 : s4.length = 8) (h5 : s5.length = 1)
    (h6 : s6.length = 4) (h7 : s7.length = 8) (h8 : s8.length = 4) :
    sliceAt bs 0 1 = s0 ∧ sliceAt bs 1 2 = s1 ∧ sliceAt bs 3 2 = s2 ∧
    sliceAt bs 5 6 = s3 ∧ sliceAt bs 11 8 = s4 ∧ sliceAt bs 19 1 = s5 ∧
    sliceAt bs 20 4 = s6 ∧ sliceAt bs 24 8 = s7 ∧ sliceAt bs 32 4 = s8 ∧
    bs.length = 36 := by
  subst hbs
  refine ⟨?_, ?_, ?_, ?_, ?_, ?_, ?_, ?_, ?_, ?_⟩
  · rw [show s0 ++ s1 ++ s2 ++ s3 ++ s4 ++ s5 ++ s6 ++ s7 ++ s8 =
      [] ++ (s0 ++ (s1 ++ s2 ++ s3 ++ s4 ++ s5 ++ s6 ++ s7 ++ s8)) from by
        simp [List.append_assoc]]
    exact sliceAt_eq_mid _ _ _ _ _ (by simp) h0
  · rw [show s0 ++ s1 ++ s2 ++ s3 ++ s4 ++ s5 ++ s6 ++ s7 ++ s8 =
      s0 ++ (s1 ++ (s2 ++ s3 ++ s4 ++ s5 ++ s6 ++ s7 ++ s8)) from by
        simp [List.append_assoc]]
    exact sliceAt_eq_mid _ _ _ _ _ h0 h1
  · rw [show s0 ++ s1 ++ s2 ++ s3 ++ s4 ++ s5 ++ s6 ++ s7 ++ s8 =
      (s0 ++ s1) ++ (s2 ++ (s3 ++ s4 ++ s5 ++ s6 ++ s7 ++ s8)) from by
        simp [List.append_assoc]]
    exact sliceAt_eq_mid _ _ _ _ _ (by simp [h0, h1]) h2
  · rw [show s0 ++ s1 ++ s2 ++ s3 ++ s4 ++ s5 ++ s6 ++ s7 ++ s8 =
      (s0 ++ s1 ++ s2) ++ (s3 ++ (s4 ++ s5 ++ s6 ++ s7 ++ s8)) from by
        simp [List.append_assoc]]
    exact sliceAt_eq_mid _ _ _ _ _ (by simp [h0, h1, h2]) h3
  · rw [show s0 ++ s1 ++ s2 ++ s3 ++ s4 ++ s5 ++ s6 ++ s7 ++ s8 =
      (s0 ++ s1 ++ s2 ++ s3) ++ (s4 ++ (s5 ++ s6 ++ s7 ++ s8)) from by
        simp [List.append_assoc]]
    exact sliceAt_eq_mid _ _ _ _ _ (by simp [h0, h1, h2, h3]) h4
  · rw [show s0 ++ s1 ++ s2 ++ s3 ++ s4 ++ s5 ++ s6 ++ s7 ++ s8 =
      (s0 ++ s1 ++ s2 ++ s3 ++ s4) ++ (s5 ++ (s6 ++ s7 ++ s8)) from by
        simp [List.append_assoc]]
    exact sliceAt_eq_mid _ _ _ _ _ (by simp [h0, h1, h2, h3, h4]) h5
  · rw [show s0 ++ s1 ++ s2 ++ s3 ++ s4 ++ s5 ++ s6 ++ s7 ++ s8 =
      (s0 ++ s1 ++ s2 ++ s3 ++ s4 ++ s5) ++ (s6 ++ (s7 ++ s8)) from by
        simp [List.append_assoc]]
    exact sliceAt_eq_mid _ _ _ _ _ (by simp [h0, h1, h2, h3, h4, h5]) h6
  · rw [show s0 ++ s1 ++ s2 ++ s3 ++ s4 ++ s5 ++ s6 ++ s7 ++ s8 =
      (s0 ++ s1 ++ s2 ++ s3 ++ s4 ++ s5 ++ s6) ++ (s7 ++ s8) from by
        simp [List.append_assoc]]
    exact sliceAt_eq_mid _ _ _ _ _ (by simp [h0, h1, h2, h3, h4, h5, h6]) h7
  · rw [show s0 ++ s1 ++ s2 ++ s3 ++ s4 ++ s5 ++ s6 ++ s7 ++ s8 =
      (s0 ++ s1 ++ s2 ++ s3 ++ s4 ++ s5 ++ s6 ++ s7) ++ (s8 ++ []) from by
        simp [List.append_assoc]]
    exact sliceAt_eq_mid _ _ _ _ _ (by simp [h0, h1, h2, h3, h4, h5, h6, h7]) h8
  · simp [h0, h1, h2, h3, h4, h5, h6, h7, h8]

/-- C3: on a valid MarketEvent the codec emits exactly 36 bytes in the
fixed big-endian §4.1 layout: message type 0x41 at byte 0, stock locate at
1-2, tracking number at 3-4, timestamp at 5-10, order reference at 11-18,
the ASCII side character at 19, shares at 20-23, the space-padded symbol
at 24-31 and the price at 32-35. -/
theorem C3_pack_layout (timestamp_ns order_ref : ℤ) (side : String)
    (shares : ℤ) (stock : String) (price_raw stock_locate tracking_num : ℤ)
    (hside : side = "B" ∨ side = "S")
    (hsh : 0 ≤ shares ∧ shares < 2 ^ 32)
    (hpr : 0 ≤ price_raw ∧ price_raw < 2 ^ 32)
    (hlen : stock.length ≤ STOCK_FIELD_LEN)
    (hascii : ∀ c ∈ stock.data, c.toNat < 128)
    (hts : 0 ≤ timestamp_ns ∧ timestamp_ns < 2 ^ 48)
    (hloc : 0 ≤ stock_locate ∧ stock_locate < 2 ^ 16)
    (htrk : 0 ≤ tracking_num ∧ tracking_num < 2 ^ 16)
    (href : 0 ≤ order_ref ∧ order_ref < 2 ^ 64) :
    ∃ bs, pack_add_order timestamp_ns order_ref side shares stock price_raw
        stock_locate tracking_num = .ok bs ∧
      bs.length = ADD_ORDER_SIZE ∧
      sliceAt bs 0 1 = [0x41] ∧
      (fromBytesBE (sliceAt bs 1 2) : ℤ) = stock_locate ∧
      (fromBytesBE (sliceAt bs 3 2) : ℤ) = tracking_num ∧
      (fromBytesBE (sliceAt bs 5 6) : ℤ) = timestamp_ns ∧
      (fromBytesBE (sliceAt bs 11 8) : ℤ) = order_ref ∧
      sliceAt bs 19 1 = side.data.map Char.toNat ∧
      (fromBytesBE (sliceAt bs 20 4) : ℤ) = shares ∧
      sliceAt bs 24 8 = stock.data.map Char.toNat ++
        List.replicate (STOCK_FIELD_LEN - stock.length) 0x20 ∧
      (fromBytesBE (sliceAt bs 32 4) : ℤ) = price_raw := by
  have hsideLen : (side.data.map Char.toNat).length = 1 := by
    rcases hside with h | h <;> subst h <;> rfl
  have hdlen : stock.length = stock.data.length := rfl
  have hstockLen : (stock.data.map Char.toNat ++
      List.replicate (STOCK_FIELD_LEN - stock.length) 0x20).length = 8 := by
    simp only [List.length_append, List.length_map, List.length_replicate,
      STOCK_FIELD_LEN]
    rw [← hdlen]
    simp only [STOCK_FIELD_LEN] at hlen
    omega
  obtain ⟨t0, t1, t2, t3, t4, t5, t6, t7, t8, tlen⟩ :=
    layout_slices [ITCH_ADD_ORDER] (toBytesBE 2 stock_locate.toNat)
      (toBytesBE 2 tracking_num.toNat) (toBytesBE 6 timestamp_ns.toNat)
      (toBytesBE 8 order_ref.toNat) (side.data.map Char.toNat)
      (toBytesBE 4 shares.toNat)
      (stock.data.map Char.toNat ++
        List.replicate (STOCK_FIELD_LEN - stock.length) 0x20)
      (toBytesBE 4 price_raw.toNat) _ rfl rfl (toBytesBE_length 2 _)
      (toBytesBE_length 2 _) (toBytesBE_length 6 _) (toBytesBE_length 8 _)
      hsideLen (toBytesBE_length 4 _) hstockLen (toBytesBE_length 4 _)
  have hp2 : (256 : ℕ) ^ 2 = 65536 := by norm_num
  have hq2 : (2 : ℤ) ^ 16 = 65536 := by norm_num
  have hp4 : (256 : ℕ) ^ 4 = 4294967296 := by norm_num
  have hq4 : (2 : ℤ) ^ 32 = 4294967296 := by norm_num
  have hp6 : (256 : ℕ) ^ 6 = 281474976710656 := by norm_num
  have hq6 : (2 : ℤ) ^ 48 = 281474976710656 := by norm_num
  have hp8 : (256 : ℕ) ^ 8 = 18446744073709551616 := by norm_num
  have hq8 : (2 : ℤ) ^ 64 = 18446744073709551616 := by norm_num
  obtain ⟨hloc1, hloc2⟩ := hloc
  obtain ⟨htrk1, htrk2⟩ := htrk
  obtain ⟨hts1, hts2⟩ := hts
  obtain ⟨href1, href2⟩ := href
  obtain ⟨hsh1, hsh2⟩ := hsh
  obtain ⟨hpr1, hpr2⟩ := hpr
  refine ⟨_, pack_add_order_eq_ok timestamp_ns order_ref side shares stock
      price_raw stock_locate tracking_num hside ⟨hsh1, hsh2⟩ ⟨hpr1, hpr2⟩
      hlen hascii ⟨hts1, hts2⟩ ⟨hloc1, hloc2⟩ ⟨htrk1, htrk2⟩ ⟨href1, href2⟩,
    ?_, ?_, ?_, ?_, ?_, ?_, ?_, ?_, ?_, ?_⟩
  · rw [tlen]; rfl
  · rw [t0]; rfl
  · rw [t1, fromBytesBE_toBytesBE 2 _ (by omega)]; omega
  · rw [t2, fromBytesBE_toBytesBE 2 _ (by omega)]; omega
  · rw [t3, fromBytesBE_toBytesBE 6 _ (by omega)]; omega
  · rw [t4, fromBytesBE_toBytesBE 8 _ (by omega)]; omega
  · exact t5
  · rw [t6, fromBytesBE_toBytesBE 4 _ (by omega)]; omega
  · exact t7
  · rw [t8, fromBytesBE_toBytesBE 4 _ (by omega)]; omega

theorem C3_witness :
    ∃ bs, pack_add_order 34200000000000 7 "B" 100 "AAPL" 1502500 0 0 =
        .ok bs ∧ bs.length = ADD_ORDER_SIZE :=
  (C3_pack_layout 34200000000000 7 "B" 100 "AAPL" 1502500 0 0
    (Or.inl rfl) (by decide) (by decide) (by decide) (by decide)
    (by decide) (by decide) (by decide) (by decide)).imp
    fun bs h => ⟨h.1, h.2.1⟩

theorem dropWhile_space_replicate (m : ℕ) (l : List Char) :
    List.dropWhile (fun c => c == ' ') (List.replicate m ' ' ++ l) =
      List.dropWhile (fun c => c == ' ') l := by
  induction m with
  | zero => rfl
  | succ m ih => simp [List.replicate_succ, List.dropWhile, ih]

theorem dropTrailingSpaces_pad (cs : List Char) (k : ℕ)
    (h : ∀ c ∈ cs, c ≠ ' ') :
    dropTrailingSpaces (cs ++ List.replicate k ' ') = cs := by
  unfold dropTrailingSpaces
  rw [List.reverse_append, List.reverse_replicate, dropWhile_space_replicate]
  cases hrev : cs.reverse with
  | nil =>
    have : cs = [] := by simpa using congrArg List.reverse hrev
    simp [this]
  | cons a t =>
    have ha : a ∈ cs := by
      rw [← List.mem_reverse, hrev]
      exact List.mem_cons_self a t
    rw [List.dropWhile.eq_def]
    simp only [beq_eq_false_iff_ne.mpr (h a ha)]
    rw [← hrev, List.reverse_reverse]

/-- C8: decoding the codec output per the §4.1 layout — each field read at
its fixed offset big-endian, the symbol with trailing space padding
stripped — recovers the original timestamp, order reference, side, shares,
symbol and price of any valid MarketEvent. -/
theorem C8_roundtrip (timestamp_ns order_ref : ℤ) (side : String)
    (shares : ℤ) (stock : String) (price_raw stock_locate tracking_num : ℤ)
    (hside : side = "B" ∨ side = "S")
    (hsh : 0 ≤ shares ∧ shares < 2 ^ 32)
    (hpr : 0 ≤ price_raw ∧ price_raw < 2 ^ 32)
    (hlen : stock.length ≤ STOCK_FIELD_LEN)
    (hascii : ∀ c ∈ stock.data, c.toNat < 128)
    (hnospace : ∀ c ∈ stock.data, c ≠ ' ')
    (hts : 0 ≤ timestamp_ns ∧ timestamp_ns < 2 ^ 48)
    (hloc : 0 ≤ stock_locate ∧ stock_locate < 2 ^ 16)
    (htrk : 0 ≤ tracking_num ∧ tracking_num < 2 ^ 16)
    (href : 0 ≤ order_ref ∧ order_ref < 2 ^ 64) :
    ∃ bs, pack_add_order timestamp_ns order_ref side shares stock price_raw
        stock_locate tracking_num = .ok bs ∧
      decode_add_order bs =
        ⟨timestamp_ns, order_ref, side, shares, stock, price_raw⟩ := by
  obtain ⟨bs, hpack, _, _, _, _, hts', href', hside', hsh', hstock', hpr'⟩ :=
    C3_pack_layout timestamp_ns order_ref side shares stock price_raw
      stock_locate tracking_num hside hsh hpr hlen hascii hts hloc htrk href
  refine ⟨bs, hpack, ?_⟩
  unfold decode_add_order
  rw [hts', href', hside', hsh', hstock', hpr']
  have hstockDecode :
      String.mk (dropTrailingSpaces ((stock.data.map Char.toNat ++
        List.replicate (STOCK_FIELD_LEN - stock.length) 0x20).map
          Char.ofNat)) = stock := by
    rw [List.map_append, List.map_map, List.map_replicate]
    have h1 : stock.data.map (Char.ofNat ∘ Char.toNat) = stock.data := by
      rw [show stock.data.map (Char.ofNat ∘ Char.toNat) =
          stock.data.map id from
          List.map_congr_left fun c _ => Char.ofNat_toNat c]
      exact List.map_id stock.data
    rw [h1, show Char.ofNat 0x20 = ' ' from rfl,
      dropTrailingSpaces_pad stock.data _ hnospace]
  have hsideDecode :
      String.mk ((side.data.map Char.toNat).map Char.ofNat) = side := by
    rcases hside with h | h <;> subst h <;> rfl
  rw [hstockDecode, hsideDecode]

theorem C8_witness :
    ∃ bs, pack_add_order 34200000000000 7 "S" 500 "MSFT" 3301200 3 4 =
        .ok bs ∧
      decode_add_order bs = ⟨34200000000000, 7, "S", 500, "MSFT", 3301200⟩ :=
  C8_roundtrip 34200000000000 7 "S" 500 "MSFT" 3301200 3 4
    (Or.inr rfl) (by decide) (by decide) (by decide) (by decide) (by decide)
    (by decide) (by decide) (by decide) (by decide)

theorem compareRows_ok_inv (tol : ℚ) (i : ℕ) (g h : List Row) (v : Verdict)
    (hv : compareRows tol i g h = .ok v) :
    v.passed + v.failed = v.total ∧
    v.details.length = v.failed ∧
    v.total = min g.length h.length ∧
    (∀ d ∈ v.details, i ≤ d.order_idx) ∧
    List.Chain' (fun a b => a.order_idx < b.order_idx) v.details := by
  induction g generalizing i h v with
  | nil =>
    unfold compareRows at hv
    injection hv with hv
    subst hv
    simp
  | cons gr gs ih =>
    cases h with
    | nil =>
      unfold compareRows at hv
      injection hv with hv
      subst hv
      simp
    | cons hr hs =>
      unfold compareRows at hv
      split at hv
      · exact absurd hv (by simp)
      rename_i rowOk ms hcr
      split at hv
      · exact absurd hv (by simp)
      rename_i w hrec
      obtain ⟨hpf, hdl, htot, hge, hchain⟩ := ih (i + 1) hs w hrec
      split at hv
      · injection hv with hv
        subst hv
        refine ⟨by dsimp; omega, by dsimp; exact hdl, ?_, ?_, ?_⟩
        · dsimp
          rw [htot]
          simp [Nat.succ_min_succ]
        · exact fun d hd => le_trans (Nat.le_succ i) (hge d hd)
        · exact hchain
      · injection hv with hv
        subst hv
        refine ⟨by dsimp; omega, ?_, ?_, ?_, ?_⟩
        · dsimp
          omega
        · dsimp
          rw [htot]
          simp [Nat.succ_min_succ]
        · intro d hd
          rcases List.mem_cons.mp hd with rfl | hd
          · exact le_refl i
          · exact le_trans (Nat.le_succ i) (hge d hd)
        · refine List.chain'_cons'.mpr ⟨?_, hchain⟩
          intro y hy
          have hmem : y ∈ w.details := List.mem_of_mem_head? hy
          exact lt_of_lt_of_le (Nat.lt_succ_self i) (hge y hmem)

theorem compareRows_take (tol : ℚ) (i : ℕ) (g h : List Row) :
    compareRows tol i g h =
      compareRows tol i (g.take h.length) (h.take g.length) := by
  induction g generalizing i h with
  | nil => simp [compareRows, List.take_nil]
  | cons gr gs ih =>
    cases h with
    | nil => simp [compareRows, List.take_nil]
    | cons hr hs =>
      rw [List.length_cons, List.length_cons, List.take_succ_cons,
        List.take_succ_cons]
      unfold compareRows
      rw [← ih (i + 1) hs]

theorem checkExact_skip (g h : Row) (fs : List String)
    (habs : ∀ f ∈ fs, lookupField g f = none ∨ lookupField h f = none) :
    checkExact g h fs = (true, []) := by
  induction fs with
  | nil => rfl
  | cons f rest ih =>
    have hrest := ih fun f' hf' => habs f' (List.mem_cons_of_mem f hf')
    have hf := habs f (List.mem_cons_self f rest)
    simp only [checkExact, hrest]
    rcases hf with hf | hf
    · rw [hf]
    · cases hgf : lookupField g f with
      | none => rfl
      | some gv => rw [hf]

theorem checkApprox_skip (g h : Row) (tol : ℚ) (fs : List String)
    (habs : ∀ f ∈ fs, lookupField g f = none ∨ lookupField h f = none) :
    checkApprox g h tol fs = (true, []) := by
  induction fs with
  | nil => rfl
  | cons f rest ih =>
    have hrest := ih fun f' hf' => habs f' (List.mem_cons_of_mem f hf')
    have hf := habs f (List.mem_cons_self f rest)
    simp only [checkApprox, hrest]
    rcases hf with hf | hf
    · rw [hf]
    · cases hgf : lookupField g f with
      | none => rfl
      | some gv => rw [hf]

theorem checkCat_skip (g h : Row) (fs : List String)
    (habs : ∀ f ∈ fs, lookupField g f = none ∨ lookupField h f = none) :
    checkCat g h fs = .ok (true, []) := by
  induction fs with
  | nil => rfl
  | cons f rest ih =>
    have hrest := ih fun f' hf' => habs f' (List.mem_cons_of_mem f hf')
    have hf := habs f (List.mem_cons_self f rest)
    simp only [checkCat, hrest]
    rcases hf with hf | hf
    · rw [hf]
    · cases hgf : lookupField g f with
      | none => rfl
      | some gv => rw [hf]

theorem compareRow_skip (g h : Row) (tol : ℚ)
    (habs : ∀ f ∈ EXACT_FIELDS ++ APPROX_FIELDS ++ CATEGORY_FIELDS,
      lookupField g f = none ∨ lookupField h f = none) :
    compareRow g h tol = .ok (true, []) := by
  have he := checkExact_skip g h EXACT_FIELDS fun f hf =>
    habs f (by simp [EXACT_FIELDS, APPROX_FIELDS, CATEGORY_FIELDS] at hf ⊢; tauto)
  have ha := checkApprox_skip g h tol APPROX_FIELDS fun f hf =>
    habs f (by simp [EXACT_FIELDS, APPROX_FIELDS, CATEGORY_FIELDS] at hf ⊢; tauto)
  have hc := checkCat_skip g h CATEGORY_FIELDS fun f hf =>
    habs f (by simp [EXACT_FIELDS, APPROX_FIELDS, CATEGORY_FIELDS] at hf ⊢; tauto)
  simp only [compareRow, he, ha, hc]
  rfl

theorem checkExact_absent_del (g h : Row) (pre post : List String)
    (f : String) (habs : lookupField g f = none ∨ lookupField h f = none) :
    checkExact g h (pre ++ f :: post) = checkExact g h (pre ++ post) := by
  induction pre with
  | nil =>
    simp only [List.nil_append, checkExact]
    rcases habs with hf | hf
    · rw [hf]
    · cases hgf : lookupField g f with
      | none => rfl
      | some gv => rw [hf]
  | cons p pre ih =>
    simp only [List.cons_append, checkExact, List.append_eq, ih]

theorem checkApprox_absent_del (g h : Row) (tol : ℚ) (pre post : List String)
    (f : String) (habs : lookupField g f = none ∨ lookupField h f = none) :
    checkApprox g h tol (pre ++ f :: post) =
      checkApprox g h tol (pre ++ post) := by
  induction pre with
  | nil =>
    simp only [List.nil_append, checkApprox]
    rcases habs with hf | hf
    · rw [hf]
    · cases hgf : lookupField g f with
      | none => rfl
      | some gv => rw [hf]
  | cons p pre ih =>
    simp only [List.cons_append, checkApprox, List.append_eq, ih]

theorem checkCat_absent_del (g h : Row) (pre post : List String)
    (f : String) (habs : lookupField g f = none ∨ lookupField h f = none) :
    checkCat g h (pre ++ f :: post) = checkCat g h (pre ++ post) := by
  induction pre with
  | nil =>
    simp only [List.nil_append, checkCat]
    cases hcc : checkCat g h post with
    | error e => rfl
    | ok tl =>
      rcases habs with hf | hf
      · rw [hf]
      · cases hgf : lookupField g f with
        | none => rfl
        | some gv => rw [hf]
  | cons p pre ih =>
    simp only [List.cons_append, checkCat, List.append_eq, ih]

/-- C4: comparison is positional over exactly the first
`min(len(golden), len(hardware))` rows — the verdict total equals that
minimum, rows beyond the shorter sequence never influence the result (a
length difference only warns), and within a row any exact / tolerance /
categorical field absent from either row is skipped: deleting it from its
field list leaves the corresponding check (flag and mismatch messages)
unchanged, so the absent field contributes no mismatch while the
remaining fields present in both rows are compared exactly as before. -/
theorem C4_positional_and_skip (golden hardware : List Row) (tol : ℚ) :
    (∀ v, compare_traces golden hardware tol = .ok v →
      v.total = min golden.length hardware.length) ∧
    compare_traces golden hardware tol =
      compare_traces (golden.take hardware.length)
        (hardware.take golden.length) tol ∧
    ∀ (g h : Row) (pre post : List String) (f : String),
      lookupField g f = none ∨ lookupField h f = none →
      checkExact g h (pre ++ f :: post) = checkExact g h (pre ++ post) ∧
      checkApprox g h tol (pre ++ f :: post) =
        checkApprox g h tol (pre ++ post) ∧
      checkCat g h (pre ++ f :: post) = checkCat g h (pre ++ post) :=
  ⟨fun v hv => (compareRows_ok_inv tol 0 golden hardware v hv).2.2.1,
   compareRows_take tol 0 golden hardware,
   fun g h pre post f habs =>
    ⟨checkExact_absent_del g h pre post f habs,
     checkApprox_absent_del g h tol pre post f habs,
     checkCat_absent_del g h pre post f habs⟩⟩

theorem C4_witness :
    ((⟨1, 1, 0, []⟩ : Verdict).total =
      min ([[("side", "B")], [("price", "1")]] : List Row).length
        ([[("side", "B")]] : List Row).length) ∧
    compare_traces [[("side", "B")], [("price", "1")]] [[("side", "B")]] 0 =
      compare_traces (([[("side", "B")], [("price", "1")]] : List Row).take 1)
        (([[("side", "B")]] : List Row).take 2) 0 ∧
    checkExact [("side", "B"), ("shares", "5")] [("side", "B"), ("shares", "7")]
        ["side", "price", "shares"] =
      checkExact [("side", "B"), ("shares", "5")] [("side", "B"), ("shares", "7")]
        ["side", "shares"] ∧
    checkApprox [("side", "B"), ("shares", "5")] [("side", "B"), ("shares", "7")]
        0 ["side", "price", "shares"] =
      checkApprox [("side", "B"), ("shares", "5")] [("side", "B"), ("shares", "7")]
        0 ["side", "shares"] ∧
    checkCat [("side", "B"), ("shares", "5")] [("side", "B"), ("shares", "7")]
        ["side", "price", "shares"] =
      checkCat [("side", "B"), ("shares", "5")] [("side", "B"), ("shares", "7")]
        ["side", "shares"] :=
  ⟨(C4_positional_and_skip [[("side", "B")], [("price", "1")]]
      [[("side", "B")]] 0).1 ⟨1, 1, 0, []⟩ rfl,
   (C4_positional_and_skip [[("side", "B")], [("price", "1")]]
      [[("side", "B")]] 0).2.1,
   (C4_positional_and_skip [[("side", "B")], [("price", "1")]]
      [[("side", "B")]] 0).2.2 [("side", "B"), ("shares", "5")]
      [("side", "B"), ("shares", "7")] ["side"] ["shares"] "price"
      (Or.inl rfl)⟩

/-- C5: any verdict `compare_traces` returns satisfies
`passed + failed == total`, carries exactly one detail record per failed
row, and lists its detail records in strictly ascending row order. -/
theorem C5_verdict_invariants (golden hardware : List Row) (tol : ℚ)
    (v : Verdict) (hv : compare_traces golden hardware tol = .ok v) :
    v.passed + v.failed = v.total ∧
    v.details.length = v.failed ∧
    List.Chain' (fun a b => a.order_idx < b.order_idx) v.details := by
  obtain ⟨h1, h2, _, _, h5⟩ := compareRows_ok_inv tol 0 golden hardware v hv
  exact ⟨h1, h2, h5⟩

theorem C5_witness :
    (Verdict.passed ⟨2, 1, 1, [⟨0, "?", ["side: golden=B hw=S"]⟩]⟩ +
      Verdict.failed ⟨2, 1, 1, [⟨0, "?", ["side: golden=B hw=S"]⟩]⟩ =
      Verdict.total ⟨2, 1, 1, [⟨0, "?", ["side: golden=B hw=S"]⟩]⟩) ∧
    (Verdict.details ⟨2, 1, 1, [⟨0, "?", ["side: golden=B hw=S"]⟩]⟩).length =
      Verdict.failed ⟨2, 1, 1, [⟨0, "?", ["side: golden=B hw=S"]⟩]⟩ ∧
    List.Chain' (fun a b => a.order_idx < b.order_idx)
      (Verdict.details ⟨2, 1, 1, [⟨0, "?", ["side: golden=B hw=S"]⟩]⟩) :=
  C5_verdict_invariants [[("side", "B")], [("side", "B")]]
    [[("side", "S")], [("side", "B")]] 0
    ⟨2, 1, 1, [⟨0, "?", ["side: golden=B hw=S"]⟩]⟩ rfl

/-- All tolerance/categorical field values present in a row parse as
numbers — the condition under which a row compared against itself can
neither self-mismatch nor raise. -/
def rowSelfParses (r : Row) : Bool :=
  (APPROX_FIELDS ++ CATEGORY_FIELDS).all fun f =>
    match lookupField r f with
    | some v => (pyFloat v).isSome
    | none => true

theorem checkExact_self (r : Row) (fs : List String) :
    checkExact r r fs = (true, []) := by
  induction fs with
  | nil => rfl
  | cons f rest ih =>
    simp only [checkExact, ih]
    cases hl : lookupField r f with
    | none => rfl
    | some v => simp

theorem checkApprox_self (r : Row) (tol : ℚ) (htol : 0 ≤ tol)
    (fs : List String)
    (hp : ∀ f ∈ fs, ∀ v, lookupField r f = some v → (pyFloat v).isSome) :
    checkApprox r r tol fs = (true, []) := by
  induction fs with
  | nil => rfl
  | cons f rest ih =>
    simp only [checkApprox, ih fun f' hf' v hv =>
      hp f' (List.mem_cons_of_mem f hf') v hv]
    cases hl : lookupField r f with
    | none => rfl
    | some v =>
      obtain ⟨q, hq⟩ := Option.isSome_iff_exists.mp
        (hp f (List.mem_cons_self f rest) v hl)
      simp only [hq]
      rw [if_neg (by rw [sub_self, abs_zero]; exact not_lt.mpr htol)]

theorem checkCat_self (r : Row) (fs : List String)
    (hp : ∀ f ∈ fs, ∀ v, lookupField r f = some v → (pyFloat v).isSome) :
    checkCat r r fs = .ok (true, []) := by
  induction fs with
  | nil => rfl
  | cons f rest ih =>
    simp only [checkCat, ih fun f' hf' v hv =>
      hp f' (List.mem_cons_of_mem f hf') v hv]
    cases hl : lookupField r f with
    | none => rfl
    | some v =>
      obtain ⟨q, hq⟩ := Option.isSome_iff_exists.mp
        (hp f (List.mem_cons_self f rest) v hl)
      simp only [hq]
      rw [if_neg (by simp)]

theorem compareRow_self (r : Row) (tol : ℚ) (htol : 0 ≤ tol)
    (hp : rowSelfParses r = true) :
    compareRow r r tol = .ok (true, []) := by
  have hp' : ∀ f ∈ APPROX_FIELDS ++ CATEGORY_FIELDS, ∀ v,
      lookupField r f = some v → (pyFloat v).isSome := by
    intro f hf v hv
    have hb := List.all_eq_true.mp hp f hf
    rw [hv] at hb
    simpa using hb
  have ha := checkApprox_self r tol htol APPROX_FIELDS fun f hf =>
    hp' f (List.mem_append_left _ hf)
  have hc := checkCat_self r CATEGORY_FIELDS fun f hf =>
    hp' f (List.mem_append_right _ hf)
  simp only [compareRow, checkExact_self, ha, hc]
  rfl

theorem compareRows_self (tol : ℚ) (htol : 0 ≤ tol) (i : ℕ) (T : List Row)
    (hp : ∀ r ∈ T, rowSelfParses r = true) :
    compareRows tol i T T = .ok ⟨T.length, T.length, 0, []⟩ := by
  induction T generalizing i with
  | nil => rfl
  | cons r rest ih =>
    unfold compareRows
    rw [compareRow_self r tol htol (hp r (List.mem_cons_self r rest)),
      ih (i + 1) fun r' hr' => hp r' (List.mem_cons_of_mem r hr')]
    rfl

/-- C7 counterexample: the claim as stated fails — comparing the non-empty
trace whose single row has the unparsable tolerance value
`moe_confidence = "x"` against itself records a parse-error mismatch, so
self-comparison does not always yield zero failures. -/
theorem C7_counterexample :
    ¬ ∀ (T : List Row) (tol : ℚ), T ≠ [] →
      ∃ v, compare_traces T T tol = .ok v ∧ v.failed = 0 ∧
        v.passed = v.total := by
  intro hclaim
  obtain ⟨v, hv, hfail, _⟩ :=
    hclaim [[("moe_confidence", "x")]] DEFAULT_TOLERANCE (by simp)
  rw [show compare_traces [[("moe_confidence", "x")]]
      [[("moe_confidence", "x")]] DEFAULT_TOLERANCE =
      .ok ⟨1, 0, 1, [⟨0, "?", ["moe_confidence: parse error"]⟩]⟩ from rfl]
    at hv
  injection hv with hv
  rw [← hv] at hfail
  exact absurd hfail (by simp)

/-- C7 (amended): comparing a non-empty trace against itself yields zero
failures and `passed == total` provided the tolerance is non-negative and
every tolerance/categorical field value present in the trace parses as a
number (an unparsable `moe_confidence` self-mismatches as a parse error,
and an unparsable `moe_action` raises instead of returning a verdict). -/
theorem C7_self_comparison (T : List Row) (tol : ℚ) (hne : T ≠ [])
    (htol : 0 ≤ tol) (hp : ∀ r ∈ T, rowSelfParses r = true) :
    compare_traces T T tol = .ok ⟨T.length, T.length, 0, []⟩ ∧
      0 < T.length := by
  refine ⟨compareRows_self tol htol 0 T hp, ?_⟩
  cases T with
  | nil => exact absurd rfl hne
  | cons r rest => simp

theorem C7_witness :
    compare_traces [[("side", "B"), ("moe_confidence", "1"), ("moe_action", "2")]]
        [[("side", "B"), ("moe_confidence", "1"), ("moe_action", "2")]] 0 =
      .ok ⟨1, 1, 0, []⟩ ∧ 0 < (1 : ℕ) :=
  C7_self_comparison
    [[("side", "B"), ("moe_confidence", "1"), ("moe_action", "2")]] 0
    (by simp) (le_refl 0) (by decide)

theorem checkApprox_parse_fail (g h : Row) (tol : ℚ) (sg sh : String)
    (hg : lookupField g "moe_confidence" = some sg)
    (hh : lookupField h "moe_confidence" = some sh)
    (hfail : pyFloat sg = none ∨ pyFloat sh = none) :
    checkApprox g h tol APPROX_FIELDS =
      (false, ["moe_confidence: parse error"]) := by
  simp only [APPROX_FIELDS, checkApprox, hg, hh]
  rcases hfail with hf | hf
  · rw [hf]
    cases hp2 : pyFloat sh with
    | none => rfl
    | some q => rfl
  · cases hp1 : pyFloat sg with
    | none => rw [hf]; rfl
    | some q => rw [hf]; rfl

theorem checkCat_raise (g h : Row) (sg sh : String)
    (hg : lookupField g "moe_action" = some sg)
    (hh : lookupField h "moe_action" = some sh)
    (hfail : pyFloat sg = none ∨ pyFloat sh = none) :
    checkCat g h CATEGORY_FIELDS = .error "ValueError" := by
  simp only [CATEGORY_FIELDS, checkCat, hg, hh]
  rcases hfail with hf | hf
  · rw [hf]
  · cases hp1 : pyFloat sg with
    | none => rw [hf]
    | some q => rw [hf]

/-- Every categorical field present in both rows parses on both sides —
the condition under which the categorical loop cannot raise. -/
def catBothParse (g h : Row) : Bool :=
  CATEGORY_FIELDS.all fun f =>
    match lookupField g f, lookupField h f with
    | some gv, some hv => (pyFloat gv).isSome && (pyFloat hv).isSome
    | _, _ => true

theorem checkCat_ok_of_parse (g h : Row) (fs : List String)
    (hp : ∀ f ∈ fs, ∀ gv hv, lookupField g f = some gv →
      lookupField h f = some hv →
      (pyFloat gv).isSome ∧ (pyFloat hv).isSome) :
    ∃ p, checkCat g h fs = .ok p := by
  induction fs with
  | nil => exact ⟨(true, []), rfl⟩
  | cons f rest ih =>
    obtain ⟨p, hps⟩ := ih fun f' hf' => hp f' (List.mem_cons_of_mem f hf')
    simp only [checkCat, hps]
    cases hgf : lookupField g f with
    | none => exact ⟨p, rfl⟩
    | some gv =>
      cases hhf : lookupField h f with
      | none => exact ⟨p, rfl⟩
      | some hv =>
        obtain ⟨h1, h2⟩ := hp f (List.mem_cons_self f rest) gv hv hgf hhf
        obtain ⟨qg, hqg⟩ := Option.isSome_iff_exists.mp h1
        obtain ⟨qh, hqh⟩ := Option.isSome_iff_exists.mp h2
        simp only [hqg, hqh]
        by_cases he : pyTrunc qg ≠ pyTrunc qh
        · rw [if_pos he]
          exact ⟨_, rfl⟩
        · rw [if_neg he]
          exact ⟨p, rfl⟩

/-- C1 counterexample: the claim as stated is false — with the categorical
field `moe_action` present in both rows but unparsable ("x"), the
comparison raises (`int(float(...))` has no `try`), aborting the run
instead of recording a mismatch. -/
theorem C1_counterexample :
    lookupField [("moe_action", "x")] "moe_action" = some "x" ∧
    pyFloat "x" = none ∧
    compare_traces [[("moe_action", "x")]] [[("moe_action", "x")]]
      DEFAULT_TOLERANCE = .error "ValueError" :=
  ⟨rfl, rfl, rfl⟩

/-- C1 (amended): when the tolerance field `moe_confidence` is present in
both rows but unparsable on either side, `compare_traces` records a
mismatch for that row and continues over the remaining rows and fields
without raising; but when the categorical field `moe_action` is present in
both rows and unparsable on either side, `compare_traces` raises an
exception that aborts the run. -/
theorem C1_parse_failure_split :
    (∀ (g h : Row) (gs hs : List Row) (tol : ℚ) (sg sh : String)
      (v : Verdict),
      lookupField g "moe_confidence" = some sg →
      lookupField h "moe_confidence" = some sh →
      (pyFloat sg = none ∨ pyFloat sh = none) →
      catBothParse g h = true →
      compareRows tol 1 gs hs = .ok v →
      ∃ ms, compare_traces (g :: gs) (h :: hs) tol =
          .ok ⟨v.total + 1, v.passed, v.failed + 1,
            ⟨0, (lookupField g "stock").getD "?", ms⟩ :: v.details⟩ ∧
        "moe_confidence: parse error" ∈ ms) ∧
    ∀ (g h : Row) (gs hs : List Row) (tol : ℚ) (sg sh : String),
      lookupField g "moe_action" = some sg →
      lookupField h "moe_action" = some sh →
      (pyFloat sg = none ∨ pyFloat sh = none) →
      compare_traces (g :: gs) (h :: hs) tol = .error "ValueError" := by
  constructor
  · intro g h gs hs tol sg sh v hg hh hfail hcat hrec
    have hcat' : ∀ f ∈ CATEGORY_FIELDS, ∀ gv hv, lookupField g f = some gv →
        lookupField h f = some hv →
        (pyFloat gv).isSome ∧ (pyFloat hv).isSome := by
      intro f hf gv hv hgl hhl
      have hb := List.all_eq_true.mp hcat f hf
      rw [hgl, hhl] at hb
      simpa using hb
    obtain ⟨p, hc⟩ := checkCat_ok_of_parse g h CATEGORY_FIELDS hcat'
    have ha := checkApprox_parse_fail g h tol sg sh hg hh hfail
    have hrow : compareRow g h tol = .ok (false,
        (checkExact g h EXACT_FIELDS).2 ++
          ["moe_confidence: parse error"] ++ p.2) := by
      simp only [compareRow, ha, hc, Bool.and_false, Bool.false_and]
    refine ⟨(checkExact g h EXACT_FIELDS).2 ++
      ["moe_confidence: parse error"] ++ p.2, ?_, ?_⟩
    · show compareRows tol 0 (g :: gs) (h :: hs) = _
      unfold compareRows
      simp only [Nat.zero_add]
      rw [hrow, hrec]
      rfl
    · simp
  · intro g h gs hs tol sg sh hg hh hfail
    have hc := checkCat_raise g h sg sh hg hh hfail
    have hrow : compareRow g h tol = .error "ValueError" := by
      simp only [compareRow, hc]
    show compareRows tol 0 (g :: gs) (h :: hs) = _
    unfold compareRows
    rw [hrow]

theorem C1_witness :
    (∃ ms, compare_traces [[("moe_confidence", "x")]]
          [[("moe_confidence", "x")]] DEFAULT_TOLERANCE =
        .ok ⟨1, 0, 1, [⟨0, "?", ms⟩]⟩ ∧
      "moe_confidence: parse error" ∈ ms) ∧
    compare_traces [[("moe_action", "zz")]] [[("moe_action", "zz")]] 0 =
      .error "ValueError" :=
  ⟨C1_parse_failure_split.1 [("moe_confidence", "x")] [("moe_confidence", "x")]
      [] [] DEFAULT_TOLERANCE "x" "x" ⟨0, 0, 0, []⟩ rfl rfl (Or.inl rfl)
      rfl rfl,
   C1_parse_failure_split.2 [("moe_action", "zz")] [("moe_action", "zz")]
      [] [] 0 "zz" "zz" rfl rfl (Or.inl rfl)⟩

/-- C6: when the tolerance field parses on both sides, the row check for
that field passes exactly when `|golden - hardware| ≤ tolerance` — a
difference equal to the tolerance passes, and a difference of
`tolerance + ε` with `ε > 0` is a mismatch. -/
theorem C6_tolerance_boundary (g h : Row) (tol : ℚ) (sg sh : String)
    (qg qh : ℚ)
    (hg : lookupField g "moe_confidence" = some sg)
    (hh : lookupField h "moe_confidence" = some sh)
    (hpg : pyFloat sg = some qg)
    (hph : pyFloat sh = some qh) :
    (checkApprox g h tol APPROX_FIELDS = (true, []) ↔ |qg - qh| ≤ tol) ∧
    ∀ ε : ℚ, 0 < ε → |qg - qh| = tol + ε →
      checkApprox g h tol APPROX_FIELDS ≠ (true, []) := by
  have hred : checkApprox g h tol APPROX_FIELDS =
      if |qg - qh| > tol then
        (false, ["moe_confidence: golden=" ++ sg ++ " hw=" ++ sh])
      else (true, []) := by
    simp only [APPROX_FIELDS, checkApprox, hg, hh, hpg, hph]
    rfl
  rw [hred]
  constructor
  · constructor
    · intro heq
      by_contra hlt
      rw [if_pos (not_le.mp hlt)] at heq
      exact absurd heq (by simp)
    · intro hle
      rw [if_neg (not_lt.mpr hle)]
  · intro ε hε habs
    rw [if_pos (by rw [habs]; exact lt_add_of_pos_right tol hε)]
    simp

theorem C6_witness :
    checkApprox [("moe_confidence", "1")] [("moe_confidence", "1")] 0
        APPROX_FIELDS = (true, []) ∧
    checkApprox [("moe_confidence", "1")] [("moe_confidence", "0")] 0
        APPROX_FIELDS ≠ (true, []) :=
  ⟨(C6_tolerance_boundary [("moe_confidence", "1")] [("moe_confidence", "1")]
      0 "1" "1" 1 1 rfl rfl rfl rfl).1.mpr (by simp),
   (C6_tolerance_boundary [("moe_confidence", "1")] [("moe_confidence", "0")]
      0 "1" "0" 1 0 rfl rfl rfl rfl).2 1 one_pos (by simp)⟩
